import Mathlib

/-!
Shallow embedding of the airline-data-warehouse ETL pipeline
(smartFileProcessor.js, uploadAllSales.js, uploadPassengers.js,
uploadAirports.js, uploadAirlines.js) and proofs about it.

Strings are modelled with Lean strings (lists of characters).  The
JavaScript string primitives used by the code (trim, toLowerCase,
toUpperCase, includes, startsWith, replace of non-digits, padStart,
split) are re-implemented character-wise below; all inputs handled by
the pipeline are ASCII, where these coincide with the JavaScript
behaviour.  Missing object fields (undefined) are modelled with
Option; JavaScript falsiness of a string field (undefined or empty)
is modelled by jsTruthy.
-/

namespace ADW

/-- ASCII whitespace, as stripped by the JavaScript trim. -/
def isSpaceChar (c : Char) : Bool :=
  c = ' ' || c = '\t' || c = '\n' || c = '\r'

/-- Character-list version of the JavaScript trim. -/
def trimChars (l : List Char) : List Char :=
  ((l.dropWhile isSpaceChar).reverse.dropWhile isSpaceChar).reverse

/-- JavaScript String.prototype.trim (ASCII inputs). -/
def jsTrim (s : String) : String := ⟨trimChars s.data⟩

/-- ASCII lower-casing of one character. -/
def lowerChar (c : Char) : Char :=
  if 65 ≤ c.toNat ∧ c.toNat ≤ 90 then Char.ofNat (c.toNat + 32) else c

/-- ASCII upper-casing of one character. -/
def upperChar (c : Char) : Char :=
  if 97 ≤ c.toNat ∧ c.toNat ≤ 122 then Char.ofNat (c.toNat - 32) else c

/-- JavaScript toLowerCase (ASCII inputs). -/
def strLower (s : String) : String := ⟨s.data.map lowerChar⟩

/-- JavaScript toUpperCase (ASCII inputs). -/
def strUpper (s : String) : String := ⟨s.data.map upperChar⟩

/-- Does the pattern occur at the head of the list? -/
def matchFront (pat : List Char) (l : List Char) : Bool :=
  match pat, l with
  | [], _ => true
  | _ :: _, [] => false
  | p :: ps, c :: cs => p = c && matchFront ps cs

/-- Does the pattern occur anywhere in the list? -/
def hasSeq (pat : List Char) (l : List Char) : Bool :=
  match l with
  | [] => pat.isEmpty
  | _ :: cs => matchFront pat l || hasSeq pat cs

/-- JavaScript String.prototype.includes. -/
def strHas (s pat : String) : Bool := hasSeq pat.data s.data

/-- JavaScript String.prototype.startsWith. -/
def strStarts (s pat : String) : Bool := matchFront pat.data s.data

/-- JavaScript truthiness of a possibly-missing string field:
undefined and the empty string are falsy. -/
def jsTruthy : Option String → Bool
  | none => false
  | some s => s ≠ ""

/-- JavaScript a or-else b on possibly-missing string fields. -/
def jsOr (a b : Option String) : Option String :=
  if jsTruthy a then a else b

/-- The digit characters of a string, in order
(JavaScript replace of every non-digit by the empty string). -/
def digitsOf (s : String) : List Char := s.data.filter Char.isDigit

/-- The last n elements of a list. -/
def takeLast (n : Nat) (l : List Char) : List Char := l.drop (l.length - n)

/-- JavaScript String.prototype.padStart with a pad character. -/
def padList (n : Nat) (c : Char) (l : List Char) : List Char :=
  List.replicate (n - l.length) c ++ l

/-- Numeric value of a digit string (JavaScript parseInt on an
all-digit string). -/
def natVal (l : List Char) : Nat :=
  l.foldl (fun acc c => acc * 10 + (c.toNat - 48)) 0

/- ## File type classifier (smartFileProcessor.js, detectFileType) -/

inductive FileType where
  | passengers | airports | airlines | flights
  | travelAgencySales | corporateSales | unknown
deriving DecidableEq, Repr

/-- One entry of the static signature registry
(smartFileProcessor.js, fileSignatures).  The name field is the
object key; the code decides sales-likeness by the key containing
the word sales. -/
structure Signature where
  name : String
  ftype : FileType
  requiredColumns : List String
  amountColumns : List String

/-- The signature registry, in declaration order. -/
def fileSignatures : List Signature :=
  [ ⟨"passengers", .passengers, [("PassengerKey"), ("FullName")], []⟩,
    ⟨"airports", .airports,
      [("AirportKey"), ("AirportName"), ("City"), ("Country")], []⟩,
    ⟨"airlines", .airlines, [("AirlineKey"), ("AirlineName")], []⟩,
    ⟨"flights", .flights,
      [("FlightKey"), ("OriginAirportKey"), ("DestinationAirportKey")], []⟩,
    ⟨"travel_agency_sales", .travelAgencySales,
      [("TransactionID"), ("TransactionDate"), ("PassengerID"), ("FlightID")],
      [("TicketPrice"), ("Taxes"), ("BaggageFees"), ("TotalAmount")]⟩,
    ⟨"corporate_sales", .corporateSales,
      [("TransactionID"), ("DateKey"), ("PassengerKey"), ("FlightKey")],
      [("TicketPrice"), ("Taxes"), ("BaggageFees"), ("TotalAmount")]⟩ ]

/-- The fuzzy fallback of detectFileType: substring scan of the raw
headers for entity-name fragments, in the order of the source. -/
def fuzzyDetect (headers : List String) : FileType :=
  if headers.any (fun h => strHas (strLower h) ("passenger")) then .passengers
  else if headers.any (fun h => strHas (strLower h) ("airport")) then .airports
  else if headers.any (fun h => strHas (strLower h) ("airline")) then .airlines
  else if headers.any (fun h => strHas (strLower h) ("flight")) then .flights
  else if headers.any (fun h => strHas (strLower h) ("transaction")) then
    if headers.any (fun h =>
        strHas (strLower h) ("travel") || strHas (strLower h) ("agency")) then
      .travelAgencySales
    else if headers.any (fun h =>
        strHas (strLower h) ("corporate") || strHas (strLower h) ("datekey")) then
      .corporateSales
    else .travelAgencySales
  else .unknown

/-- smartFileProcessor.js detectFileType.  Note: the source trims the
headers but does not lower-case them (the lowerHeaders variable),
while it lower-cases each registered column name before the exact
membership test. -/
def detectFileType (headers : List String) : FileType :=
  let lowerHeaders := headers.map jsTrim
  match fileSignatures.find? (fun sig =>
    let hasRequired := sig.requiredColumns.all
      (fun col => lowerHeaders.contains (strLower col))
    if strHas sig.name ("sales") then
      hasRequired && sig.amountColumns.any
        (fun col => lowerHeaders.contains (strLower col))
    else hasRequired) with
  | some sig => sig.ftype
  | none => fuzzyDetect headers

end ADW

namespace ADW

/-- C1 scenario: canonical CamelCase travel-agency sales headers. -/
def salesHeadersCamel : List String :=
  [("TransactionID"), ("TransactionDate"), ("PassengerID"), ("FlightID"),
   ("TicketPrice")]

/-- The same headers written in lower case. -/
def salesHeadersLower : List String :=
  [("transactionid"), ("transactiondate"), ("passengerid"), ("flightid"),
   ("ticketprice")]

end ADW

/-- C1: the header list containing (case-insensitively) exactly the
required columns of the travel-agency sales signature, plus an amount
column, is classified as passengers, not as travel-agency sales: the
exact-match loop compares trimmed but not lower-cased headers against
lower-cased column names, so it never fires on CamelCase headers and
the fuzzy fallback matches the passenger fragment first.  The same
headers written in lower case do match the intended signature. -/
theorem C1_detect_camelcase_misclassified :
    ADW.detectFileType ADW.salesHeadersCamel = ADW.FileType.passengers ∧
    ADW.detectFileType ADW.salesHeadersLower = ADW.FileType.travelAgencySales ∧
    ADW.FileType.passengers ≠ ADW.FileType.travelAgencySales := by
  refine ⟨by decide, by decide, by decide⟩

namespace ADW

/- ## Passenger-key standardization -/

/-- smartFileProcessor.js / uploadAllSales.js standardizePassengerKey:
reject a missing or empty key, reject a key without the letter P,
collect the digit characters, reject fewer than 3 digits, otherwise
return P followed by the last 3 digits padded to width 3. -/
def spk : Option String → Option String
  | none => none
  | some s =>
    if s = "" then none
    else if ¬ strHas s ("P") then none
    else
      let numbers := digitsOf s
      if numbers.length < 3 then none
      else some ⟨'P' :: padList 3 '0' (takeLast 3 numbers)⟩

/-- uploadPassengers.js standardizePassengerKey: trim; if the key
starts with P and contains a digit, or merely contains a digit, keep
the digits, reject fewer than 3, otherwise return P plus the last 3
digits padded; reject keys with no digit at all. -/
def ppk : Option String → Option String
  | none => none
  | some s0 =>
    if s0 = "" then none
    else
      let s := jsTrim s0
      if strStarts s ("P") && s.data.any Char.isDigit then
        let numbers := digitsOf s
        if numbers.length < 3 then none
        else some ⟨'P' :: padList 3 '0' (takeLast 3 numbers)⟩
      else if s.data.any Char.isDigit then
        let numbers := digitsOf s
        if numbers.length < 3 then none
        else some ⟨'P' :: padList 3 '0' (takeLast 3 numbers)⟩
      else none

lemma hasSeq_singleton (c : Char) (l : List Char) :
    hasSeq [c] l = l.contains c := by
  induction l with
  | nil => rfl
  | cons x xs ih =>
    by_cases h : c = x
    · subst h
      simp [hasSeq, matchFront, ih]
    · simp [hasSeq, matchFront, ih, h]

lemma takeLast_length_of_le {n : Nat} {l : List Char} (h : n ≤ l.length) :
    (takeLast n l).length = n := by
  simp [takeLast]
  omega

lemma padList_self {l : List Char} (h : l.length = 3) :
    padList 3 '0' l = l := by
  simp [padList, h]

lemma digitsOf_all_digit (s : String) : ∀ c ∈ digitsOf s, c.isDigit := by
  intro c hc
  exact (List.mem_filter.mp hc).2

/-- Success characterization of the shared standardizer: a produced
key is the letter P followed by the last three digit characters of
the input. -/
lemma spk_some_iff (s : String) (r : String) :
    spk (some s) = some r ↔
      (strHas s ("P") ∧ 3 ≤ (digitsOf s).length ∧
        r = ⟨'P' :: takeLast 3 (digitsOf s)⟩) := by
  constructor
  · intro h
    simp only [spk] at h
    by_cases h0 : s = ""
    · simp [h0] at h
    by_cases h1 : strHas s ("P")
    · by_cases h2 : (digitsOf s).length < 3
      · simp [h0, h1, h2] at h
      · simp only [h0, h1, h2, if_neg, if_pos, not_true_eq_false, if_false,
          ite_false, Option.some.injEq] at h
        refine ⟨h1, by omega, ?_⟩
        rw [← h]
        have h3 : (takeLast 3 (digitsOf s)).length = 3 :=
          takeLast_length_of_le (by omega)
        rw [padList_self h3]
    · simp [h0, h1] at h
  · rintro ⟨h1, h2, h3⟩
    have h0 : s ≠ "" := by
      intro hs
      rw [hs] at h1
      simp [strHas, hasSeq] at h1
    have h3' : (takeLast 3 (digitsOf s)).length = 3 :=
      takeLast_length_of_le h2
    simp [spk, h0, h1, Nat.not_lt.mpr h2, padList_self h3', h3]

/-- Failure characterization of the shared standardizer. -/
lemma spk_none_iff (s : String) :
    spk (some s) = none ↔ (¬ strHas s ("P") ∨ (digitsOf s).length < 3) := by
  simp only [spk]
  by_cases h0 : s = ""
  · subst h0
    simp [strHas, hasSeq]
  by_cases h1 : strHas s ("P")
  · by_cases h2 : (digitsOf s).length < 3 <;> simp [h0, h1, h2]
  · simp [h0, h1]

/-- Failure characterization of the passenger-uploader standardizer:
it rejects exactly the keys whose trimmed form has fewer than 3
digits (no letter P is required). -/
lemma ppk_none_iff (s : String) :
    ppk (some s) = none ↔ (digitsOf (jsTrim s)).length < 3 := by
  simp only [ppk]
  by_cases h0 : s = ""
  · subst h0
    decide
  by_cases hd : (jsTrim s).data.any Char.isDigit
  · by_cases h2 : (digitsOf (jsTrim s)).length < 3
    · by_cases hp : strStarts (jsTrim s) ("P") <;> simp [h0, hd, h2, hp]
    · by_cases hp : strStarts (jsTrim s) ("P") <;> simp [h0, hd, h2, hp]
  · have : digitsOf (jsTrim s) = [] := by
      simp only [digitsOf]
      rw [List.filter_eq_nil_iff]
      intro c hc
      simp only [List.any_eq_true, not_exists, not_and] at hd
      exact fun h => (hd c hc h).elim
    simp [h0, hd, this]

lemma any_isDigit_of_digits {s : String} (h : digitsOf s ≠ []) :
    s.data.any Char.isDigit := by
  rcases hds : digitsOf s with _ | ⟨c, cs⟩
  · exact (h hds).elim
  · have hc : c ∈ digitsOf s := by rw [hds]; simp
    rw [List.any_eq_true]
    exact ⟨c, (List.mem_filter.mp hc).1, (List.mem_filter.mp hc).2⟩

/-- Evaluation of the passenger-uploader standardizer on accepted keys. -/
lemma ppk_eval (s : String) (h0 : s ≠ "")
    (hd : (jsTrim s).data.any Char.isDigit)
    (h2 : 3 ≤ (digitsOf (jsTrim s)).length) :
    ppk (some s) = some ⟨'P' :: takeLast 3 (digitsOf (jsTrim s))⟩ := by
  have h3 : (takeLast 3 (digitsOf (jsTrim s))).length = 3 :=
    takeLast_length_of_le h2
  by_cases hp : strStarts (jsTrim s) ("P") <;>
    simp [ppk, h0, hd, hp, Nat.not_lt.mpr h2, padList_self h3]

/-- Success characterization of the passenger-uploader standardizer. -/
lemma ppk_some_iff (s : String) (r : String) :
    ppk (some s) = some r ↔
      (3 ≤ (digitsOf (jsTrim s)).length ∧
        r = ⟨'P' :: takeLast 3 (digitsOf (jsTrim s))⟩) := by
  constructor
  · intro h
    have hne : ppk (some s) ≠ none := by simp [h]
    rw [Ne, ppk_none_iff, Nat.not_lt] at hne
    refine ⟨hne, ?_⟩
    have hd : (jsTrim s).data.any Char.isDigit :=
      any_isDigit_of_digits (by
        intro hnil
        rw [hnil] at hne
        simp at hne)
    have h0 : s ≠ "" := by
      intro hs
      rw [hs] at hne
      simp [jsTrim, trimChars, digitsOf] at hne
    have heval := ppk_eval s h0 hd hne
    rw [h] at heval
    exact Option.some_inj.mp heval
  · rintro ⟨h2, h3⟩
    have hd : (jsTrim s).data.any Char.isDigit :=
      any_isDigit_of_digits (by
        intro hnil
        rw [hnil] at h2
        simp at h2)
    have h0 : s ≠ "" := by
      intro hs
      rw [hs] at h2
      simp [jsTrim, trimChars, digitsOf] at h2
    rw [ppk_eval s h0 hd h2, h3]

end ADW

namespace ADW

lemma isSpaceChar_eq_false_of_isDigit {c : Char} (h : c.isDigit) :
    isSpaceChar c = false := by
  simp only [isSpaceChar, Bool.or_eq_false_iff, decide_eq_false_iff_not]
  refine ⟨⟨⟨?_, ?_⟩, ?_⟩, ?_⟩ <;> rintro rfl <;> exact absurd h (by decide)

lemma trimChars_eq_self {l : List Char}
    (h : ∀ c ∈ l, isSpaceChar c = false) : trimChars l = l := by
  have h1 : l.dropWhile isSpaceChar = l := by
    cases l with
    | nil => rfl
    | cons x xs => simp [List.dropWhile_cons, h x (by simp)]
  rw [trimChars, h1]
  have h2 : l.reverse.dropWhile isSpaceChar = l.reverse := by
    cases hrev : l.reverse with
    | nil => rfl
    | cons x xs =>
      have hx : x ∈ l := by
        rw [← List.mem_reverse, hrev]
        simp
      simp [List.dropWhile_cons, h x hx]
  rw [h2, List.reverse_reverse]

lemma takeLast_all_digit {s : String} {c : Char}
    (hc : c ∈ takeLast 3 (digitsOf s)) : c.isDigit := by
  have : c ∈ digitsOf s := List.mem_of_mem_drop hc
  exact digitsOf_all_digit s c this

lemma takeLast_self {l : List Char} (h : l.length = 3) : takeLast 3 l = l := by
  simp [takeLast, h]

lemma digitsOf_canonical {d : List Char} (hd : ∀ c ∈ d, c.isDigit) :
    digitsOf ⟨'P' :: d⟩ = d := by
  simp only [digitsOf, List.filter_cons]
  have : ('P').isDigit = false := by decide
  rw [this]
  simp only [Bool.false_eq_true, if_false, ite_false]
  exact List.filter_eq_self.mpr hd

lemma strHas_canonical (d : List Char) : strHas ⟨'P' :: d⟩ ("P") = true := by
  show hasSeq ['P'] ('P' :: d) = true
  rw [hasSeq_singleton]
  simp

/-- Idempotence of the shared standardizer on produced keys. -/
lemma spk_idem (s r : String) (h : spk (some s) = some r) :
    spk (some r) = some r := by
  obtain ⟨hP, hlen, hr⟩ := (spk_some_iff s r).mp h
  have hdlen : (takeLast 3 (digitsOf s)).length = 3 := takeLast_length_of_le hlen
  have hrdata : r.data = 'P' :: takeLast 3 (digitsOf s) := by rw [hr]
  have hdig : digitsOf r = takeLast 3 (digitsOf s) := by
    have : r = ⟨'P' :: takeLast 3 (digitsOf s)⟩ := hr
    rw [this]
    exact digitsOf_canonical (fun c hc => takeLast_all_digit hc)
  apply (spk_some_iff r r).mpr
  refine ⟨?_, ?_, ?_⟩
  · rw [hr]
    exact strHas_canonical _
  · rw [hdig, hdlen]
  · rw [hdig, takeLast_self hdlen, hr]

/-- Idempotence of the passenger-uploader standardizer on produced keys. -/
lemma ppk_idem (s r : String) (h : ppk (some s) = some r) :
    ppk (some r) = some r := by
  obtain ⟨hlen, hr⟩ := (ppk_some_iff s r).mp h
  have hdlen : (takeLast 3 (digitsOf (jsTrim s))).length = 3 :=
    takeLast_length_of_le hlen
  have htrim : jsTrim r = r := by
    have : trimChars r.data = r.data := by
      apply trimChars_eq_self
      intro c hc
      have hc' : c ∈ 'P' :: takeLast 3 (digitsOf (jsTrim s)) := by
        rw [hr] at hc
        exact hc
      rcases List.mem_cons.mp hc' with rfl | hc2
      · decide
      · exact isSpaceChar_eq_false_of_isDigit (takeLast_all_digit hc2)
    show (⟨trimChars r.data⟩ : String) = r
    rw [this]
  have hdig : digitsOf r = takeLast 3 (digitsOf (jsTrim s)) := by
    rw [hr]
    exact digitsOf_canonical (fun c hc => takeLast_all_digit hc)
  apply (ppk_some_iff r r).mpr
  rw [htrim, hdig]
  constructor
  · rw [hdlen]
  · rw [takeLast_self hdlen, hr]

end ADW

/-- C3 (amended): the smart-processor and sales-uploader passenger-key
standardizer rejects exactly the keys that are absent, lack the upper
case letter P, or contain fewer than 3 digit characters in total; the
passenger-uploader variant rejects exactly the keys that are absent
or whose trimmed form contains fewer than 3 digit characters (no
letter P needed); every accepted key maps to the letter P followed by
the last 3 digits of the key; both variants are idempotent: applied
to a key they produced, they return it unchanged. -/
theorem C3_passenger_key_standardization :
    (∀ s : String,
      ADW.spk (some s) = none ↔
        (¬ ADW.strHas s ("P") ∨ (ADW.digitsOf s).length < 3)) ∧
    (∀ s : String,
      ADW.ppk (some s) = none ↔ (ADW.digitsOf (ADW.jsTrim s)).length < 3) ∧
    (∀ s r : String, ADW.spk (some s) = some r →
      r = ⟨'P' :: ADW.takeLast 3 (ADW.digitsOf s)⟩) ∧
    (∀ s r : String, ADW.ppk (some s) = some r →
      r = ⟨'P' :: ADW.takeLast 3 (ADW.digitsOf (ADW.jsTrim s))⟩) ∧
    (∀ s r : String, ADW.spk (some s) = some r → ADW.spk (some r) = some r) ∧
    (∀ s r : String, ADW.ppk (some s) = some r → ADW.ppk (some r) = some r) ∧
    ADW.spk none = none ∧ ADW.ppk none = none := by
  refine ⟨?_, ADW.ppk_none_iff, ?_, ?_, ADW.spk_idem, ADW.ppk_idem, rfl, rfl⟩
  · exact ADW.spk_none_iff
  · intro s r h
    exact ((ADW.spk_some_iff s r).mp h).2.2
  · intro s r h
    exact ((ADW.ppk_some_iff s r).mp h).2

/-- C3 witness: the theorem applied at a concrete accepted key, and
idempotence at its output. -/
theorem C3_passenger_key_witness :
    ADW.spk (some ("XP4501")) = some ("P501") ∧
    ADW.spk (some ("P501")) = some ("P501") := by
  have h1 : ADW.spk (some ("XP4501")) = some ("P501") := by decide
  exact ⟨h1, C3_passenger_key_standardization.2.2.2.2.1 ("XP4501") ("P501") h1⟩

/-- C3 counterexample: the key 123 contains a digit sequence of length
3, yet the smart-processor and sales-uploader standardizer rejects it
(it demands the letter P), contradicting the claim that every key
with at least 3 digits standardizes to P plus its last 3 digits. -/
theorem C3_counterexample :
    ADW.spk (some ("123")) = none ∧
    (ADW.digitsOf ("123")).length = 3 ∧
    (none : Option String) ≠ some ("P123") := by
  refine ⟨by decide, by decide, by decide⟩

namespace ADW

/- ## Amount standardization -/

/-- Integer digits at the head of the string. -/
def intPart (l : List Char) : List Char := l.takeWhile Char.isDigit

/-- Fraction digits after an optional dot following the integer
digits. -/
def fracPart (l : List Char) : List Char :=
  let rest := l.drop (intPart l).length
  if rest.head? = some '.' then rest.tail.takeWhile Char.isDigit else []

/-- Exact-decimal model of JavaScript parseFloat on a string already
restricted to digits, dots (and possibly minus signs): parse the
leading run of digits, then an optional dot and a second run of
digits, ignoring the rest; no digits at all is NaN (none). -/
def parseUnsigned (l : List Char) : Option ℚ :=
  if intPart l = [] ∧ fracPart l = [] then none
  else some ((natVal (intPart l) : ℚ) +
    (natVal (fracPart l) : ℚ) / (10 : ℚ) ^ (fracPart l).length)

/-- parseFloat including a leading minus sign. -/
def parseLeadFloat (l : List Char) : Option ℚ :=
  if l.head? = some '-' then (parseUnsigned l.tail).map (fun q => -q)
  else parseUnsigned l

/-- JavaScript toFixed(2) followed by parseFloat, on the exact
decimal value: round to 2 fraction digits, ties towards plus
infinity. -/
def roundTo2 (q : ℚ) : ℚ := (⌊q * 100 + 1 / 2⌋ : ℚ) / 100

/-- Shared tail of both amount standardizers: parse the stripped
character list and round; NaN becomes 0.00. -/
def amountOfClean (clean : List Char) : ℚ :=
  match parseLeadFloat clean with
  | none => 0
  | some q => roundTo2 q

/-- uploadAllSales.js standardizeAmount: falsy input gives 0.00;
otherwise strip every character that is not a digit or a dot (the
minus sign is stripped as well), parse as a decimal, and round;
unparseable input gives 0.00. -/
def salesAmount (amount : Option String) : ℚ :=
  if jsTruthy amount = false then 0
  else
    match amount with
    | none => 0
    | some s => amountOfClean (s.data.filter (fun c => c.isDigit || c = '.'))

/-- smartFileProcessor.js processSalesData inline standardize: no
falsy guard (an undefined amount stringifies to the word undefined),
and the stripping keeps digits, dots and minus signs. -/
def smartAmount (amount : Option String) : ℚ :=
  let s := match amount with | none => ("undefined") | some s => s
  amountOfClean (s.data.filter (fun c => c.isDigit || c = '.' || c = '-'))

lemma parseUnsigned_nil : parseUnsigned [] = none := rfl

lemma parseLeadFloat_nil : parseLeadFloat [] = none := rfl

lemma amountOfClean_nil : amountOfClean [] = 0 := rfl

lemma parseLeadFloat_no_minus {l : List Char} (h : l.head? ≠ some '-') :
    parseLeadFloat l = parseUnsigned l := by
  simp [parseLeadFloat, h]

lemma parseUnsigned_nonneg {l : List Char} {q : ℚ}
    (h : parseUnsigned l = some q) : 0 ≤ q := by
  rw [parseUnsigned] at h
  by_cases hc : intPart l = [] ∧ fracPart l = []
  · rw [if_pos hc] at h
    exact absurd h (by simp)
  · rw [if_neg hc] at h
    have hq := Option.some_inj.mp h
    rw [← hq]
    positivity

lemma roundTo2_nonneg {q : ℚ} (h : 0 ≤ q) : 0 ≤ roundTo2 q := by
  have h1 : (0 : ℤ) ≤ ⌊q * 100 + 1 / 2⌋ := by
    rw [Int.le_floor]
    push_cast
    linarith
  rw [roundTo2]
  have h2 : (0 : ℚ) ≤ (⌊q * 100 + 1 / 2⌋ : ℚ) := by exact_mod_cast h1
  positivity

lemma roundTo2_intCast (z : ℤ) : roundTo2 (z : ℚ) = z := by
  have h1 : ⌊(z : ℚ) * 100 + 1 / 2⌋ = z * 100 := by
    rw [Int.floor_eq_iff]
    constructor
    · push_cast
      linarith
    · push_cast
      linarith
  rw [roundTo2, h1]
  push_cast
  field_simp

lemma roundTo2_natCast (n : ℕ) : roundTo2 (n : ℚ) = n := by
  have h := roundTo2_intCast (n : ℤ)
  push_cast at h
  exact h

lemma takeWhile_all {p : Char → Bool} {l : List Char}
    (h : ∀ c ∈ l, p c) : l.takeWhile p = l := by
  induction l with
  | nil => rfl
  | cons x xs ih =>
    rw [List.takeWhile_cons, h x (by simp)]
    rw [ih (fun c hc => h c (by simp [hc]))]
    simp

/-- parseUnsigned of a nonempty all-digit string is its integer value. -/
lemma parseUnsigned_digits {d : List Char} (hne : d ≠ [])
    (hd : ∀ c ∈ d, c.isDigit) :
    parseUnsigned d = some ((natVal d : ℚ)) := by
  have hip : intPart d = d := takeWhile_all hd
  have hfp : fracPart d = [] := by
    rw [fracPart, hip]
    simp
  rw [parseUnsigned, hip, hfp]
  simp [hne, natVal]

lemma mk_eq_empty_iff (l : List Char) : (⟨l⟩ : String) = "" ↔ l = [] := by
  rw [show ("" : String) = ⟨[]⟩ from rfl]
  constructor
  · intro h
    injection h
  · intro h
    rw [h]

/-- salesAmount on a nonempty raw string reduces to the stripped
parse. -/
lemma salesAmount_mk {l : List Char} (h : l ≠ []) :
    salesAmount (some ⟨l⟩) =
      amountOfClean (l.filter (fun c => c.isDigit || c = '.')) := by
  have ht : jsTruthy (some ⟨l⟩) = true := by
    simp [jsTruthy, mk_eq_empty_iff, h]
  simp [salesAmount, ht]

lemma smartAmount_mk (l : List Char) :
    smartAmount (some ⟨l⟩) =
      amountOfClean (l.filter (fun c => c.isDigit || c = '.' || c = '-')) := rfl

lemma amountOfClean_nonneg_of_no_minus {l : List Char}
    (h : l.head? ≠ some '-') : 0 ≤ amountOfClean l := by
  rw [amountOfClean, parseLeadFloat_no_minus h]
  cases hp : parseUnsigned l with
  | none => exact le_refl 0
  | some q => exact roundTo2_nonneg (parseUnsigned_nonneg hp)

lemma salesAmount_nonneg (a : Option String) : 0 ≤ salesAmount a := by
  cases a with
  | none => exact le_refl 0
  | some s =>
    obtain ⟨l⟩ := s
    by_cases hl : l = []
    · subst hl
      exact le_refl 0
    · rw [salesAmount_mk hl]
      apply amountOfClean_nonneg_of_no_minus
      intro hh
      have hmem : '-' ∈ l.filter (fun c => c.isDigit || c = '.') := by
        cases hfil : l.filter (fun c => c.isDigit || c = '.') with
        | nil =>
          rw [hfil] at hh
          simp at hh
        | cons x xs =>
          rw [hfil] at hh
          simp only [List.head?_cons, Option.some_inj] at hh
          rw [← hh]
          simp
      have := (List.mem_filter.mp hmem).2
      exact absurd this (by decide)

lemma salesAmount_unparseable (s : String)
    (h : ∀ c ∈ s.data, ¬(c.isDigit = true ∨ c = '.')) :
    salesAmount (some s) = 0 := by
  obtain ⟨l⟩ := s
  by_cases hl : l = []
  · subst hl
    rfl
  · rw [salesAmount_mk hl]
    have hfil : l.filter (fun c => c.isDigit || c = '.') = [] := by
      rw [List.filter_eq_nil_iff]
      intro c hc
      simp only [Bool.or_eq_true, decide_eq_true_eq]
      exact h c hc
    rw [hfil, amountOfClean_nil]

lemma salesAmount_noise (l1 l2 : List Char) (c : Char)
    (hc : ¬(c.isDigit = true ∨ c = '.')) :
    salesAmount (some ⟨l1 ++ c :: l2⟩) = salesAmount (some ⟨l1 ++ l2⟩) := by
  have h1 : c.isDigit = false := by
    cases hb : c.isDigit
    · rfl
    · exact absurd (Or.inl hb) hc
  have h2 : c ≠ '.' := fun he => hc (Or.inr he)
  have hfc : (c.isDigit || decide (c = '.')) = false := by
    simp [h1, h2]
  have hfil : (l1 ++ c :: l2).filter (fun x => x.isDigit || x = '.') =
      (l1 ++ l2).filter (fun x => x.isDigit || x = '.') := by
    rw [List.filter_append, List.filter_append, List.filter_cons, hfc]
    simp
  by_cases hnil : l1 ++ l2 = []
  · rcases List.append_eq_nil.mp hnil with ⟨ha, hb⟩
    subst ha
    subst hb
    have hl : salesAmount (some ⟨[] ++ c :: []⟩) =
        amountOfClean (([] ++ c :: []).filter (fun x => x.isDigit || x = '.')) :=
      salesAmount_mk (by simp)
    rw [hl, hfil]
    rfl
  · rw [salesAmount_mk (by simp), salesAmount_mk hnil, hfil]

lemma salesAmount_digits (d : List Char) (hne : d ≠ [])
    (hd : ∀ c ∈ d, c.isDigit) : salesAmount (some ⟨d⟩) = (natVal d : ℚ) := by
  rw [salesAmount_mk hne]
  have hfil : d.filter (fun x => x.isDigit || x = '.') = d := by
    apply List.filter_eq_self.mpr
    intro c hc
    simp [hd c hc]
  rw [hfil]
  have hhead : d.head? ≠ some '-' := by
    intro hh
    cases d with
    | nil => simp at hh
    | cons x xs =>
      simp only [List.head?_cons, Option.some_inj] at hh
      have := hd x (by simp)
      rw [hh] at this
      exact absurd this (by decide)
  rw [amountOfClean, parseLeadFloat_no_minus hhead, parseUnsigned_digits hne hd]
  exact roundTo2_natCast (natVal d)

lemma smartAmount_neg_digits (d : List Char) (hne : d ≠ [])
    (hd : ∀ c ∈ d, c.isDigit) :
    smartAmount (some ⟨'-' :: d⟩) = -(natVal d : ℚ) := by
  rw [smartAmount_mk]
  have hfil : ('-' :: d).filter (fun x => x.isDigit || x = '.' || x = '-') =
      '-' :: d := by
    apply List.filter_eq_self.mpr
    intro c hc
    rcases List.mem_cons.mp hc with rfl | hc2
    · decide
    · simp [hd c hc2]
  rw [hfil]
  have hlead : parseLeadFloat ('-' :: d) =
      (parseUnsigned d).map (fun q => -q) := by
    rw [parseLeadFloat]
    simp
  rw [amountOfClean, hlead, parseUnsigned_digits hne hd]
  show roundTo2 (-((natVal d : ℕ) : ℚ)) = -((natVal d : ℕ) : ℚ)
  have h := roundTo2_intCast (-(natVal d : ℤ))
  push_cast at h
  exact h

end ADW

/-- C7 (amended): the sales-uploader amount standardizer strips every
character other than digits and the dot - the minus sign included, so
its result is always nonnegative and a negative amount standardizes
to its absolute numeric value - parses the remainder as a decimal and
rounds to 2 fraction digits; the smart-processor inline standardizer
keeps the minus sign and preserves the sign of the amount; an absent
or unparseable amount standardizes to 0.00 (total functions: the row
is never rejected on that account), and characters outside the kept
set never change the result. -/
theorem C7_amount_standardization :
    (∀ a : Option String, 0 ≤ ADW.salesAmount a) ∧
    ADW.salesAmount none = 0 ∧
    (∀ s : String, (∀ c ∈ s.data, ¬(c.isDigit = true ∨ c = '.')) →
      ADW.salesAmount (some s) = 0) ∧
    (∀ l1 l2 : List Char, ∀ c : Char, ¬(c.isDigit = true ∨ c = '.') →
      ADW.salesAmount (some ⟨l1 ++ c :: l2⟩) =
        ADW.salesAmount (some ⟨l1 ++ l2⟩)) ∧
    (∀ d : List Char, d ≠ [] → (∀ c ∈ d, c.isDigit) →
      ADW.salesAmount (some ⟨d⟩) = (ADW.natVal d : ℚ) ∧
      ADW.smartAmount (some ⟨'-' :: d⟩) = -(ADW.natVal d : ℚ)) :=
  ⟨ADW.salesAmount_nonneg, rfl, ADW.salesAmount_unparseable,
   ADW.salesAmount_noise,
   fun d hne hd => ⟨ADW.salesAmount_digits d hne hd,
     ADW.smartAmount_neg_digits d hne hd⟩⟩

/-- C7 witness: the theorem applied at the digit string 5. -/
theorem C7_amount_witness :
    ADW.salesAmount (some ⟨['5']⟩) = (5 : ℚ) ∧
    ADW.smartAmount (some ⟨['-', '5']⟩) = -(5 : ℚ) := by
  have h := C7_amount_standardization.2.2.2.2 ['5'] (by decide) (by decide)
  have hn : ADW.natVal ['5'] = 5 := by decide
  rw [hn] at h
  exact_mod_cast h

/-- C7 counterexample: the amount -5 standardizes to 5 in the sales
uploader (the minus sign is stripped with the other noise), not to
the sign-included value -5 that the claim requires; the smart
processor keeps the sign. -/
theorem C7_amount_counterexample :
    ADW.salesAmount (some ("-5")) = 5 ∧
    ADW.smartAmount (some ("-5")) = -5 ∧ (5 : ℚ) ≠ -5 := by
  have hv : ADW.natVal ['5'] = 5 := by decide
  have h1 : ADW.salesAmount (some ("-5")) = 5 := by
    have hn := ADW.salesAmount_noise [] ['5'] '-' (by decide)
    have hd := ADW.salesAmount_digits ['5'] (by decide) (by decide)
    calc ADW.salesAmount (some ("-5"))
        = ADW.salesAmount (some ⟨[] ++ '-' :: ['5']⟩) := rfl
      _ = ADW.salesAmount (some ⟨[] ++ ['5']⟩) := hn
      _ = ADW.salesAmount (some ⟨['5']⟩) := rfl
      _ = (ADW.natVal ['5'] : ℚ) := hd
      _ = 5 := by rw [hv]; norm_num
  have h2 : ADW.smartAmount (some ("-5")) = -5 := by
    have hs := ADW.smartAmount_neg_digits ['5'] (by decide) (by decide)
    calc ADW.smartAmount (some ("-5"))
        = ADW.smartAmount (some ⟨'-' :: ['5']⟩) := rfl
      _ = -(ADW.natVal ['5'] : ℚ) := hs
      _ = -5 := by rw [hv]; norm_num
  exact ⟨h1, h2, by norm_num⟩

namespace ADW

/- ## Email, loyalty and passenger row processing -/

/-- JavaScript split on a single separator character: splitting the
empty list gives one empty group, and every separator starts a new
group. -/
def splitChar (sep : Char) : List Char → List (List Char)
  | [] => [[]]
  | c :: cs =>
    match splitChar sep cs with
    | [] => [[]]
    | g :: gs => if c = sep then [] :: g :: gs else (c :: g) :: gs

/-- The basic local at domain dot tld shape tested by both email
standardizers: no whitespace, exactly one at-sign with a nonempty
local part, and a domain containing an interior dot. -/
def emailShapeTest (s : String) : Bool :=
  (s.data.all (fun c => !isSpaceChar c)) &&
  match splitChar '@' s.data with
  | [localPart, domain] =>
    (!localPart.isEmpty) && (!domain.isEmpty) &&
    ((domain.drop 1).dropLast.contains '.')
  | _ => false

/-- JavaScript a or-else b where the result is used as a string. -/
def jsOrStr (a : Option String) (b : String) : String :=
  if jsTruthy a then a.getD b else b

/-- uploadPassengers.js standardizeEmail: keep a well-shaped existing
email lower-cased, else synthesize first.last at example.com from the
full name (or first at example.com without a last name). -/
def standardizeEmail (fullName : String) (existingEmail : Option String) :
    String :=
  if jsTruthy existingEmail && emailShapeTest (existingEmail.getD "") then
    strLower (existingEmail.getD "")
  else
    let names := splitChar ' ' (jsTrim fullName).data
    let firstName := match names.head? with
      | some g => if g.isEmpty then ("user") else strLower ⟨g⟩
      | none => ("user")
    let lastName := if names.length > 1 then
        match names.getLast? with
        | some g => strLower ⟨g⟩
        | none => ""
      else ""
    if lastName ≠ "" then
      firstName ++ (".") ++ lastName ++ ("@example.com")
    else firstName ++ ("@example.com")

/-- smartFileProcessor.js standardizeEmail: same as the uploader
version but the full name may be missing, in which case the name list
is empty and the local part falls back to the word user. -/
def smartEmail (fullName : Option String) (existingEmail : Option String) :
    String :=
  if jsTruthy existingEmail && emailShapeTest (existingEmail.getD "") then
    strLower (existingEmail.getD "")
  else
    let names := match fullName with
      | some f => splitChar ' ' (jsTrim f).data
      | none => []
    let firstName := match names.head? with
      | some g => if g.isEmpty then ("user") else strLower ⟨g⟩
      | none => ("user")
    let lastName := if names.length > 1 then
        match names.getLast? with
        | some g => strLower ⟨g⟩
        | none => ""
      else ""
    if lastName ≠ "" then
      firstName ++ (".") ++ lastName ++ ("@example.com")
    else firstName ++ ("@example.com")

/-- uploadPassengers.js standardizeLoyaltyStatus: falsy input gives
Bronze, else case-insensitive substring or exact tier match, default
Bronze. -/
def standardizeLoyaltyStatus (status : Option String) : String :=
  match status with
  | none => ("Bronze")
  | some st =>
    if st = "" then ("Bronze")
    else
      let upper := strUpper (jsTrim st)
      if strHas upper ("PLATINUM") || upper = ("PLAT") then ("Platinum")
      else if strHas upper ("GOLD") || upper = ("GOLD") then ("Gold")
      else if strHas upper ("SILVER") || upper = ("SILV") then ("Silver")
      else if strHas upper ("BRONZE") || upper = ("BRNZ") then ("Bronze")
      else ("Bronze")

/-- A raw passenger CSV row; missing columns are none. -/
structure PassengerRow where
  PassengerKey : Option String
  FullName : Option String
  Email : Option String
  LoyaltyStatus : Option String
deriving DecidableEq, Repr

/-- Clean passenger record of smartFileProcessor.js (full name may be
missing since the source only optionally trims it). -/
structure PassengerRec where
  passenger_key : String
  full_name : Option String
  email : String
  loyalty_status : String
deriving DecidableEq, Repr

/-- A quarantined passenger row with its reason. -/
structure PDirty where
  row : PassengerRow
  reason : String
deriving DecidableEq, Repr

/-- smartFileProcessor.js processPassengerData: reject rows whose key
fails standardization, otherwise emit the canonical record; the
source catch block is unreachable because no step throws. -/
def processPassengerData (rows : List PassengerRow) :
    List PassengerRec × List PDirty :=
  match rows with
  | [] => ([], [])
  | row :: rest =>
    match spk row.PassengerKey with
    | none =>
      ((processPassengerData rest).1,
       ⟨row, ("Invalid passenger key")⟩ :: (processPassengerData rest).2)
    | some pk =>
      ({ passenger_key := pk,
         full_name := row.FullName.map jsTrim,
         email := smartEmail row.FullName row.Email,
         loyalty_status :=
           match row.LoyaltyStatus.map jsTrim with
           | some t => if t = "" then ("Bronze") else t
           | none => ("Bronze") } :: (processPassengerData rest).1,
       (processPassengerData rest).2)

/-- Clean passenger record of uploadPassengers.js (full name defaults
to the word Unknown). -/
structure PassengerRec2 where
  passenger_key : String
  full_name : String
  email : String
  loyalty_status : String
deriving DecidableEq, Repr

/-- The row loop of uploadPassengers.js (step 2): first the key is
standardized (invalid keys are quarantined), then within-file
duplicates of the standardized key are quarantined, then the unique
passenger is recorded; the second argument carries the keys already
in the insertion-ordered map. -/
def ppRowsAux : List PassengerRow → List String →
    List PassengerRec2 × List PDirty
  | [], _ => ([], [])
  | row :: rest, seen =>
    let originalKey := row.PassengerKey.map jsTrim
    match ppk originalKey with
    | none =>
      let (c, d) := ppRowsAux rest seen
      (c, ⟨row, ("Invalid passenger key format: ") ++
        (match originalKey with
         | some k => k
         | none => ("undefined"))⟩ :: d)
    | some sk =>
      if seen.contains sk then
        let (c, d) := ppRowsAux rest seen
        (c, ⟨row, ("Duplicate passenger key: ") ++ sk⟩ :: d)
      else
        let (c, d) := ppRowsAux rest (sk :: seen)
        let fn := jsOrStr (row.FullName.map jsTrim) ("Unknown")
        ({ passenger_key := sk,
           full_name := fn,
           email := standardizeEmail fn (row.Email.map jsTrim),
           loyalty_status := standardizeLoyaltyStatus row.LoyaltyStatus } :: c,
         d)

/-- uploadPassengers.js step 2 starting from an empty map. -/
def processPassengerRows (rows : List PassengerRow) :
    List PassengerRec2 × List PDirty :=
  ppRowsAux rows []

/- ## Airline processing (smartFileProcessor.js processAirlineData) -/

structure AirlineRow where
  AirlineKey : Option String
  AirlineName : Option String
  Alliance : Option String
deriving DecidableEq, Repr

structure AirlineRec where
  airline_key : Option String
  airline_name : Option String
  alliance : Option String
deriving DecidableEq, Repr

/-- The per-row mapping of processAirlineData. -/
def airlineRec (row : AirlineRow) : AirlineRec :=
  { airline_key := row.AirlineKey.map (fun k => strUpper (jsTrim k)),
    airline_name := row.AirlineName.map jsTrim,
    alliance := if row.Alliance.map jsTrim = some ("N/A") then none
      else row.Alliance.map jsTrim }

/-- smartFileProcessor.js processAirlineData: map every row, keep
only those with a truthy key, and produce no dirty data at all - rows
with a blank key are silently dropped. -/
def processAirlineData (rows : List AirlineRow) :
    List AirlineRec × List (AirlineRow × String) :=
  ((rows.map airlineRec).filter (fun r => jsTruthy r.airline_key), [])

/-- C4 scenario rows. -/
def janeRowP1 : PassengerRow :=
  ⟨some ("P1"), some ("Jane Doe"), some (""), some ("gold")⟩

def janeRowP001 : PassengerRow :=
  ⟨some ("P001"), some ("Jane Doe"), some (""), some ("gold")⟩

end ADW

/-- C4 counterexample: the row with PassengerKey P1 is quarantined
with an invalid-key reason by both passenger processors (P1 has only
one digit), so it does not standardize to the claimed clean record. -/
theorem C4_counterexample :
    ADW.processPassengerRows [ADW.janeRowP1] =
      ([], [⟨ADW.janeRowP1, ("Invalid passenger key format: P1")⟩]) ∧
    ADW.processPassengerData [ADW.janeRowP1] =
      ([], [⟨ADW.janeRowP1, ("Invalid passenger key")⟩]) := by
  refine ⟨by decide, by decide⟩

/-- C4 (amended): the header list PassengerKey, FullName, Email,
LoyaltyStatus classifies as the passenger entity (through the fuzzy
fallback), and the Jane Doe row with the already-canonical key P001
standardizes in the passenger uploader to exactly the claimed record
with loyalty status Gold; the smart processor produces the same key
and email but keeps the loyalty string verbatim as gold. -/
theorem C4_passenger_scenario :
    ADW.detectFileType
      [("PassengerKey"), ("FullName"), ("Email"), ("LoyaltyStatus")] =
      ADW.FileType.passengers ∧
    ADW.processPassengerRows [ADW.janeRowP001] =
      ([⟨("P001"), ("Jane Doe"), ("jane.doe@example.com"), ("Gold")⟩], []) ∧
    ADW.processPassengerData [ADW.janeRowP001] =
      ([⟨("P001"), some ("Jane Doe"), ("jane.doe@example.com"), ("gold")⟩],
       []) := by
  refine ⟨by decide, by decide, by decide⟩

namespace ADW

/- ## Sales file processing (uploadAllSales.js processSalesFile) -/

/-- A raw sales CSV row; missing columns are none. -/
structure SalesRow where
  TransactionID : Option String
  TransactionDate : Option String
  DateKey : Option String
  PassengerID : Option String
  PassengerKey : Option String
  FlightID : Option String
  FlightKey : Option String
  TicketPrice : Option String
  Taxes : Option String
  BaggageFees : Option String
  TotalAmount : Option String
deriving DecidableEq, Repr

/-- A clean fact-sales record. -/
structure Sale where
  transaction_id : String
  date_key : Nat
  passenger_key : String
  flight_key : String
  ticket_price : ℚ
  taxes : ℚ
  baggage_fees : ℚ
  total_amount : ℚ
  sales_source : String
deriving DecidableEq, Repr

/-- A quarantined raw sales row. -/
structure SRowDirty where
  source_table : String
  original_data : SalesRow
  reason : String
deriving DecidableEq, Repr

/-- Transaction-ID synthesis: trim the raw id, keep its digits (or
the digit 0 when absent or digitless), left-pad to width 6, and add
the source-subtype code TA or CO. -/
def synthTxId (st : String) (tid : Option String) : String :=
  let numbers := match tid.map jsTrim with
    | some t => if digitsOf t = [] then ("0").data else digitsOf t
    | none => ("0").data
  (if st = ("travel_agency") then ("TA") else ("CO")) ++ ⟨padList 6 '0' numbers⟩

/-- parseInt of the standardized date with its separators removed. -/
def dateKeyOf (d : String) : Nat :=
  natVal ((d.data.filter (fun c => ¬ c = '-')).takeWhile Char.isDigit)

/-- The row loop of processSalesFile.  The date standardizer wraps
the host Date parser, an external collaborator, so it is passed in as
the oracle dp.  The duplicate check on the synthesized transaction id
runs before any validation, and the id is recorded in the seen set
(the second argument) before validation as well. -/
def salesRowsAux (dp : Option String → Option String) (st : String) :
    List SalesRow → List String → List Sale × List SRowDirty
  | [], _ => ([], [])
  | row :: rest, seen =>
    let transactionId := synthTxId st row.TransactionID
    if seen.contains transactionId then
      ((salesRowsAux dp st rest seen).1,
       ⟨st, row, ("Duplicate transaction ID within file: ") ++ transactionId⟩
         :: (salesRowsAux dp st rest seen).2)
    else
      let seen1 := transactionId :: seen
      match spk (jsOr row.PassengerID row.PassengerKey) with
      | none =>
        ((salesRowsAux dp st rest seen1).1,
         ⟨st, row, ("Invalid passenger key")⟩ :: (salesRowsAux dp st rest seen1).2)
      | some passengerKey =>
        let fk := jsOr row.FlightID row.FlightKey
        if jsTruthy fk = false then
          ((salesRowsAux dp st rest seen1).1,
           ⟨st, row, ("Missing flight key")⟩ :: (salesRowsAux dp st rest seen1).2)
        else
          match dp (jsOr row.TransactionDate row.DateKey) with
          | none =>
            ((salesRowsAux dp st rest seen1).1,
             ⟨st, row, ("Invalid date")⟩ :: (salesRowsAux dp st rest seen1).2)
          | some standardizedDate =>
            if jsTruthy row.TicketPrice = false ∧ row.TicketPrice ≠ some ("0") then
              ((salesRowsAux dp st rest seen1).1,
               ⟨st, row, ("Missing ticket price")⟩
                 :: (salesRowsAux dp st rest seen1).2)
            else
              ({ transaction_id := transactionId,
                 date_key := dateKeyOf standardizedDate,
                 passenger_key := passengerKey,
                 flight_key := fk.getD "",
                 ticket_price := salesAmount row.TicketPrice,
                 taxes := salesAmount (jsOr row.Taxes (some ("0"))),
                 baggage_fees := salesAmount (jsOr row.BaggageFees (some ("0"))),
                 total_amount := salesAmount row.TotalAmount,
                 sales_source := st } :: (salesRowsAux dp st rest seen1).1,
               (salesRowsAux dp st rest seen1).2)

/-- processSalesFile starting from an empty seen set. -/
def processSalesFile (dp : Option String → Option String) (st : String)
    (rows : List SalesRow) : List Sale × List SRowDirty :=
  salesRowsAux dp st rows []

end ADW

namespace ADW

/-- Any row whose synthesized transaction id is already in the seen
set or appears earlier in the file is quarantined as a within-file
duplicate, regardless of whether the earlier occurrence was itself
later rejected. -/
lemma salesRowsAux_dup_mem (dp : Option String → Option String) (st : String) :
    ∀ (rows : List SalesRow) (seen : List String) (j : Nat)
      (hj : j < rows.length),
    (synthTxId st (rows.get ⟨j, hj⟩).TransactionID ∈ seen ∨
      synthTxId st (rows.get ⟨j, hj⟩).TransactionID ∈
        (rows.take j).map (fun r => synthTxId st r.TransactionID)) →
    (⟨st, rows.get ⟨j, hj⟩,
      ("Duplicate transaction ID within file: ") ++
        synthTxId st (rows.get ⟨j, hj⟩).TransactionID⟩ : SRowDirty) ∈
      (salesRowsAux dp st rows seen).2 := by
  intro rows
  induction rows with
  | nil =>
    intro seen j hj
    exact absurd hj (by simp)
  | cons row rest ih =>
    intro seen j hj h
    cases j with
    | zero =>
      have hmem : synthTxId st row.TransactionID ∈ seen := by
        rcases h with h | h
        · exact h
        · simp at h
      have hcont : seen.contains (synthTxId st row.TransactionID) = true :=
        List.elem_iff.mpr hmem
      show _ ∈ (salesRowsAux dp st (row :: rest) seen).2
      simp only [salesRowsAux, hcont, if_true]
      exact List.mem_cons_self _ _
    | succ j' =>
      have hj' : j' < rest.length := by simpa using hj
      by_cases hdup : seen.contains (synthTxId st row.TransactionID) = true
      · have h0 : synthTxId st (rest.get ⟨j', hj'⟩).TransactionID ∈ seen ∨
            synthTxId st (rest.get ⟨j', hj'⟩).TransactionID ∈
              (rest.take j').map (fun r => synthTxId st r.TransactionID) := by
          rcases h with h | h
          · exact Or.inl h
          · rw [List.take_succ_cons, List.map_cons] at h
            rcases List.mem_cons.mp h with he | h2
            · refine Or.inl ?_
              have he2 : synthTxId st (rest.get ⟨j', hj'⟩).TransactionID =
                  synthTxId st row.TransactionID := he
              rw [he2]
              exact List.elem_iff.mp hdup
            · exact Or.inr h2
        show _ ∈ (salesRowsAux dp st (row :: rest) seen).2
        simp only [salesRowsAux, hdup, if_true]
        exact List.mem_cons_of_mem _ (ih seen j' hj' h0)
      · have h1 : synthTxId st (rest.get ⟨j', hj'⟩).TransactionID ∈
              (synthTxId st row.TransactionID :: seen) ∨
            synthTxId st (rest.get ⟨j', hj'⟩).TransactionID ∈
              (rest.take j').map (fun r => synthTxId st r.TransactionID) := by
          rcases h with h | h
          · exact Or.inl (List.mem_cons_of_mem _ h)
          · rw [List.take_succ_cons, List.map_cons] at h
            rcases List.mem_cons.mp h with he | h2
            · refine Or.inl ?_
              have he2 : synthTxId st (rest.get ⟨j', hj'⟩).TransactionID =
                  synthTxId st row.TransactionID := he
              rw [he2]
              exact List.mem_cons_self _ _
            · exact Or.inr h2
        have hbranch := ih (synthTxId st row.TransactionID :: seen) j' hj' h1
        show _ ∈ (salesRowsAux dp st (row :: rest) seen).2
        simp only [salesRowsAux]
        rw [if_neg hdup]
        cases hpk : spk (jsOr row.PassengerID row.PassengerKey) with
        | none =>
          simp only [hpk]
          exact List.mem_cons_of_mem _ hbranch
        | some pk =>
          simp only [hpk]
          by_cases hfk : jsTruthy (jsOr row.FlightID row.FlightKey) = false
          · rw [if_pos hfk]
            exact List.mem_cons_of_mem _ hbranch
          · rw [if_neg hfk]
            cases hdp : dp (jsOr row.TransactionDate row.DateKey) with
            | none =>
              simp only [hdp]
              exact List.mem_cons_of_mem _ hbranch
            | some dstd =>
              simp only [hdp]
              by_cases hpr : jsTruthy row.TicketPrice = false ∧
                  row.TicketPrice ≠ some ("0")
              · rw [if_pos hpr]
                exact List.mem_cons_of_mem _ hbranch
              · rw [if_neg hpr]
                exact hbranch

/-- Every sales row produces exactly one output: a clean record or a
quarantine entry. -/
lemma salesRowsAux_partition (dp : Option String → Option String)
    (st : String) :
    ∀ (rows : List SalesRow) (seen : List String),
    (salesRowsAux dp st rows seen).1.length +
      (salesRowsAux dp st rows seen).2.length = rows.length := by
  intro rows
  induction rows with
  | nil =>
    intro seen
    rfl
  | cons row rest ih =>
    intro seen
    have h1 := ih seen
    have h2 := ih (synthTxId st row.TransactionID :: seen)
    simp only [salesRowsAux]
    split <;> (try split) <;> (try split) <;> (try split) <;> (try split) <;>
      simp only [List.length_cons] <;> omega

/-- Quarantined sales rows are, in order, a sublist of the input
rows (their payloads are the original rows). -/
lemma salesRowsAux_dirty_sublist (dp : Option String → Option String)
    (st : String) :
    ∀ (rows : List SalesRow) (seen : List String),
    List.Sublist
      ((salesRowsAux dp st rows seen).2.map (fun e => e.original_data))
      rows := by
  intro rows
  induction rows with
  | nil =>
    intro seen
    simp [salesRowsAux]
  | cons row rest ih =>
    intro seen
    have h1 := ih seen
    have h2 := ih (synthTxId st row.TransactionID :: seen)
    simp only [salesRowsAux]
    split <;> (try split) <;> (try split) <;> (try split) <;> (try split) <;>
      simp only [List.map_cons] <;>
      first
        | exact List.Sublist.cons₂ _ h1
        | exact List.Sublist.cons₂ _ h2
        | exact List.Sublist.cons _ h2

/-- Every passenger row of the smart processor produces exactly one
output: a clean record or a quarantine entry. -/
lemma processPassengerData_partition :
    ∀ rows : List PassengerRow,
    (processPassengerData rows).1.length +
      (processPassengerData rows).2.length = rows.length := by
  intro rows
  induction rows with
  | nil => rfl
  | cons row rest ih =>
    simp only [processPassengerData]
    cases hpk : spk row.PassengerKey with
    | none =>
      simp only [hpk, List.length_cons]
      omega
    | some pk =>
      simp only [hpk, List.length_cons]
      omega

/-- Quarantined passenger rows of the smart processor carry the
original rows, in file order. -/
lemma processPassengerData_dirty_sublist :
    ∀ rows : List PassengerRow,
    List.Sublist ((processPassengerData rows).2.map (fun e => e.row)) rows := by
  intro rows
  induction rows with
  | nil => simp [processPassengerData]
  | cons row rest ih =>
    simp only [processPassengerData]
    cases hpk : spk row.PassengerKey with
    | none =>
      simp only [hpk, List.map_cons]
      exact List.Sublist.cons₂ _ ih
    | some pk =>
      simp only [hpk]
      exact List.Sublist.cons _ ih

end ADW

namespace ADW

/-- C10 scenario: an earlier row whose passenger key is invalid but
whose transaction id 7 is recorded, and a later row with transaction
id 07 synthesizing to the same TA000007. -/
def c10Row1 : SalesRow :=
  ⟨some ("7"), some ("2024-01-15"), none, some ("XYZ"), none,
   some ("F1"), none, some ("100"), none, none, some ("100")⟩

def c10Row2 : SalesRow :=
  ⟨some ("07"), some ("2024-01-15"), none, some ("P123"), none,
   some ("F1"), none, some ("100"), none, none, some ("100")⟩

end ADW

/-- C10: in the sales file processor the within-file duplicate check
on the synthesized transaction id runs before any validation: every
row whose synthesized id equals that of any earlier row of the file
is quarantined as a within-file duplicate, with no assumption that
the earlier row was valid - a rejected row still reserves its id. -/
theorem C10_dup_check_before_validation :
    ∀ (dp : Option String → Option String) (st : String)
      (rows : List ADW.SalesRow) (j : Nat) (hj : j < rows.length),
    ADW.synthTxId st (rows.get ⟨j, hj⟩).TransactionID ∈
      (rows.take j).map (fun r => ADW.synthTxId st r.TransactionID) →
    (⟨st, rows.get ⟨j, hj⟩,
      ("Duplicate transaction ID within file: ") ++
        ADW.synthTxId st (rows.get ⟨j, hj⟩).TransactionID⟩ : ADW.SRowDirty) ∈
      (ADW.processSalesFile dp st rows).2 :=
  fun dp st rows j hj h =>
    ADW.salesRowsAux_dup_mem dp st rows [] j hj (Or.inr h)

/-- C10 witness: the theorem applied to a file whose first row has
transaction id 7 but an invalid passenger key (it is quarantined as
invalid), and whose second row has id 07; the second row is still
quarantined as a within-file duplicate of TA000007. -/
theorem C10_dup_check_witness :
    (⟨("travel_agency"), ADW.c10Row2,
      ("Duplicate transaction ID within file: TA000007")⟩ : ADW.SRowDirty) ∈
      (ADW.processSalesFile (fun _ => some ("2024-01-15")) ("travel_agency")
        [ADW.c10Row1, ADW.c10Row2]).2 ∧
    ADW.spk (ADW.jsOr ADW.c10Row1.PassengerID ADW.c10Row1.PassengerKey) =
      none := by
  constructor
  · have h := C10_dup_check_before_validation
      (fun _ => some ("2024-01-15")) ("travel_agency")
      [ADW.c10Row1, ADW.c10Row2] 1 (by decide) (by decide)
    exact h
  · decide

/-- C9 counterexample: an airline row with a blank key is rejected
(it reaches no clean record) yet the airline processor emits no
quarantine entry at all - the row is silently dropped, contradicting
the claim of exactly one quarantine entry per rejected row. -/
theorem C9_counterexample :
    ADW.processAirlineData [⟨some (""), some ("Acme Air"), none⟩] =
      ([], []) ∧ (0 : Nat) ≠ 1 := by
  refine ⟨by decide, by decide⟩

/-- C9 (amended): the smart-processor passenger and sales-file row
loops quarantine exactly one entry per rejected row (clean plus
quarantined outputs partition the input rows) and each quarantine
entry carries the original row payload in file order; the airline
processor, by contrast, never produces any quarantine entry, so its
blank-key rows are silently dropped. -/
theorem C9_rejected_rows_quarantined :
    (∀ rows : List ADW.PassengerRow,
      (ADW.processPassengerData rows).1.length +
        (ADW.processPassengerData rows).2.length = rows.length) ∧
    (∀ rows : List ADW.PassengerRow,
      List.Sublist ((ADW.processPassengerData rows).2.map (fun e => e.row))
        rows) ∧
    (∀ (dp : Option String → Option String) (st : String)
        (rows : List ADW.SalesRow),
      (ADW.processSalesFile dp st rows).1.length +
        (ADW.processSalesFile dp st rows).2.length = rows.length) ∧
    (∀ (dp : Option String → Option String) (st : String)
        (rows : List ADW.SalesRow),
      List.Sublist
        ((ADW.processSalesFile dp st rows).2.map (fun e => e.original_data))
        rows) ∧
    (∀ rows : List ADW.AirlineRow, (ADW.processAirlineData rows).2 = []) :=
  ⟨ADW.processPassengerData_partition,
   ADW.processPassengerData_dirty_sublist,
   fun dp st rows => ADW.salesRowsAux_partition dp st rows [],
   fun dp st rows => ADW.salesRowsAux_dirty_sublist dp st rows [],
   fun _ => rfl⟩

namespace ADW

/- ## Cross-file deduplication (uploadAllSales.js, seenIds loop) -/

/-- A quarantined clean sale record. -/
structure SaleDirty where
  source_table : String
  original_data : Sale
  reason : String
deriving DecidableEq, Repr

/-- The quarantine entry for a cross-file duplicate sale. -/
def crossDupEntry (s : Sale) : SaleDirty :=
  ⟨s.sales_source, s,
   ("Duplicate transaction ID across files: ") ++ s.transaction_id⟩

/-- The cross-file dedup loop: keep a record whose transaction id was
not seen, else quarantine it; the second argument is the set of ids
seen so far. -/
def dedupAux : List Sale → List String → List Sale × List SaleDirty
  | [], _ => ([], [])
  | s :: rest, seen =>
    if seen.contains s.transaction_id then
      ((dedupAux rest seen).1, crossDupEntry s :: (dedupAux rest seen).2)
    else
      (s :: (dedupAux rest (s.transaction_id :: seen)).1,
       (dedupAux rest (s.transaction_id :: seen)).2)

/-- The dedup pass starting from an empty seen set. -/
def dedupSales (l : List Sale) : List Sale × List SaleDirty := dedupAux l []

lemma dedupAux_nodup :
    ∀ (l : List Sale) (seen : List String),
    (((dedupAux l seen).1.map (fun s => s.transaction_id)).Nodup ∧
      ∀ k ∈ (dedupAux l seen).1.map (fun s => s.transaction_id), k ∉ seen) := by
  intro l
  induction l with
  | nil =>
    intro seen
    exact ⟨List.nodup_nil, by simp [dedupAux]⟩
  | cons s rest ih =>
    intro seen
    by_cases hdup : seen.contains s.transaction_id = true
    · have h := ih seen
      constructor
      · simpa only [dedupAux, hdup, if_true] using h.1
      · intro k hk
        refine h.2 k ?_
        simpa only [dedupAux, hdup, if_true] using hk
    · have h := ih (s.transaction_id :: seen)
      have hmap : (dedupAux (s :: rest) seen).1.map
          (fun s => s.transaction_id) =
          s.transaction_id ::
            (dedupAux rest (s.transaction_id :: seen)).1.map
              (fun s => s.transaction_id) := by
        simp only [dedupAux, hdup, Bool.false_eq_true, if_false, List.map_cons]
      rw [hmap]
      have hs_notin : s.transaction_id ∉
          (dedupAux rest (s.transaction_id :: seen)).1.map
            (fun s => s.transaction_id) := by
        intro hmem
        exact (h.2 _ hmem) (List.mem_cons_self _ _)
      constructor
      · exact List.Nodup.cons hs_notin h.1
      · intro k hk
        rcases List.mem_cons.mp hk with rfl | hk2
        · intro hks
          exact hdup (List.elem_iff.mpr hks)
        · intro hks
          exact (h.2 k hk2) (List.mem_cons_of_mem _ hks)

lemma dedupAux_first_mem :
    ∀ (l : List Sale) (seen : List String) (j : Nat) (hj : j < l.length),
    (l.get ⟨j, hj⟩).transaction_id ∉ seen →
    (l.get ⟨j, hj⟩).transaction_id ∉
      (l.take j).map (fun s => s.transaction_id) →
    l.get ⟨j, hj⟩ ∈ (dedupAux l seen).1 := by
  intro l
  induction l with
  | nil =>
    intro seen j hj
    exact absurd hj (by simp)
  | cons s rest ih =>
    intro seen j hj hseen hpre
    cases j with
    | zero =>
      have hdup : ¬ seen.contains s.transaction_id = true := by
        intro hc
        exact hseen (List.elem_iff.mp hc)
      show _ ∈ (dedupAux (s :: rest) seen).1
      simp only [dedupAux, hdup, Bool.false_eq_true, if_false]
      exact List.mem_cons_self _ _
    | succ j' =>
      have hj' : j' < rest.length := by simpa using hj
      have hget : (s :: rest).get ⟨j' + 1, hj⟩ = rest.get ⟨j', hj'⟩ := rfl
      rw [List.take_succ_cons, List.map_cons] at hpre
      have hne : (rest.get ⟨j', hj'⟩).transaction_id ≠ s.transaction_id := by
        intro he
        refine hpre ?_
        rw [hget, he]
        exact List.mem_cons_self _ _
      have hpre' : (rest.get ⟨j', hj'⟩).transaction_id ∉
          (rest.take j').map (fun s => s.transaction_id) := by
        intro hmem
        refine hpre ?_
        rw [hget]
        exact List.mem_cons_of_mem _ hmem
      by_cases hdup : seen.contains s.transaction_id = true
      · show _ ∈ (dedupAux (s :: rest) seen).1
        simp only [dedupAux, hdup, if_true]
        exact ih seen j' hj' (by rw [hget] at hseen; exact hseen) hpre'
      · have hseen1 : (rest.get ⟨j', hj'⟩).transaction_id ∉
            (s.transaction_id :: seen) := by
          intro hmem
          rcases List.mem_cons.mp hmem with he | hm
          · exact hne he
          · rw [hget] at hseen
            exact hseen hm
        show _ ∈ (dedupAux (s :: rest) seen).1
        simp only [dedupAux, hdup, Bool.false_eq_true, if_false]
        exact List.mem_cons_of_mem _
          (ih (s.transaction_id :: seen) j' hj' hseen1 hpre')

lemma dedupAux_dup_mem :
    ∀ (l : List Sale) (seen : List String) (j : Nat) (hj : j < l.length),
    ((l.get ⟨j, hj⟩).transaction_id ∈ seen ∨
      (l.get ⟨j, hj⟩).transaction_id ∈
        (l.take j).map (fun s => s.transaction_id)) →
    crossDupEntry (l.get ⟨j, hj⟩) ∈ (dedupAux l seen).2 := by
  intro l
  induction l with
  | nil =>
    intro seen j hj
    exact absurd hj (by simp)
  | cons s rest ih =>
    intro seen j hj h
    cases j with
    | zero =>
      have hmem : s.transaction_id ∈ seen := by
        rcases h with h | h
        · exact h
        · simp at h
      have hdup : seen.contains s.transaction_id = true :=
        List.elem_iff.mpr hmem
      show _ ∈ (dedupAux (s :: rest) seen).2
      simp only [dedupAux, hdup, if_true]
      exact List.mem_cons_self _ _
    | succ j' =>
      have hj' : j' < rest.length := by simpa using hj
      have hget : (s :: rest).get ⟨j' + 1, hj⟩ = rest.get ⟨j', hj'⟩ := rfl
      rw [hget] at h ⊢
      rw [List.take_succ_cons, List.map_cons] at h
      by_cases hdup : seen.contains s.transaction_id = true
      · have h0 : (rest.get ⟨j', hj'⟩).transaction_id ∈ seen ∨
            (rest.get ⟨j', hj'⟩).transaction_id ∈
              (rest.take j').map (fun s => s.transaction_id) := by
          rcases h with h | h
          · exact Or.inl h
          · rcases List.mem_cons.mp h with he | h2
            · exact Or.inl (by rw [he]; exact List.elem_iff.mp hdup)
            · exact Or.inr h2
        show _ ∈ (dedupAux (s :: rest) seen).2
        simp only [dedupAux, hdup, if_true]
        exact List.mem_cons_of_mem _ (ih seen j' hj' h0)
      · have h1 : (rest.get ⟨j', hj'⟩).transaction_id ∈
            (s.transaction_id :: seen) ∨
            (rest.get ⟨j', hj'⟩).transaction_id ∈
              (rest.take j').map (fun s => s.transaction_id) := by
          rcases h with h | h
          · exact Or.inl (List.mem_cons_of_mem _ h)
          · rcases List.mem_cons.mp h with he | h2
            · exact Or.inl (by rw [he]; exact List.mem_cons_self _ _)
            · exact Or.inr h2
        show _ ∈ (dedupAux (s :: rest) seen).2
        simp only [dedupAux, hdup, Bool.false_eq_true, if_false]
        exact ih (s.transaction_id :: seen) j' hj' h1

lemma dedupAux_partition :
    ∀ (l : List Sale) (seen : List String),
    (dedupAux l seen).1.length + (dedupAux l seen).2.length = l.length := by
  intro l
  induction l with
  | nil =>
    intro seen
    rfl
  | cons s rest ih =>
    intro seen
    have h1 := ih seen
    have h2 := ih (s.transaction_id :: seen)
    simp only [dedupAux]
    split <;> simp only [List.length_cons] <;> omega

end ADW

namespace ADW

/-- C8 scenario: two distinct clean records sharing one transaction
id. -/
def saleA : Sale :=
  ⟨("TA000007"), 20240115, ("P001"), ("F1"), 100, 0, 0, 100,
   ("travel_agency")⟩

def saleB : Sale :=
  ⟨("TA000007"), 20240116, ("P002"), ("F2"), 50, 0, 0, 50, ("corporate")⟩

end ADW

/-- C8: in the cross-file dedup scope of the sales uploader, the
clean output carries no two records with the same transaction id,
every record that is the first of its id appears in the clean output,
every record with an earlier equal id is quarantined with the
across-files duplicate reason, and clean plus quarantined outputs
partition the input sequence. -/
theorem C8_dedup_first_kept :
    (∀ l : List ADW.Sale,
      ((ADW.dedupSales l).1.map (fun s => s.transaction_id)).Nodup) ∧
    (∀ (l : List ADW.Sale) (j : Nat) (hj : j < l.length),
      (l.get ⟨j, hj⟩).transaction_id ∉
        (l.take j).map (fun s => s.transaction_id) →
      l.get ⟨j, hj⟩ ∈ (ADW.dedupSales l).1) ∧
    (∀ (l : List ADW.Sale) (j : Nat) (hj : j < l.length),
      (l.get ⟨j, hj⟩).transaction_id ∈
        (l.take j).map (fun s => s.transaction_id) →
      ADW.crossDupEntry (l.get ⟨j, hj⟩) ∈ (ADW.dedupSales l).2) ∧
    (∀ l : List ADW.Sale,
      (ADW.dedupSales l).1.length + (ADW.dedupSales l).2.length = l.length) :=
  ⟨fun l => (ADW.dedupAux_nodup l []).1,
   fun l j hj hpre => ADW.dedupAux_first_mem l [] j hj (by simp) hpre,
   fun l j hj h => ADW.dedupAux_dup_mem l [] j hj (Or.inr h),
   fun l => ADW.dedupAux_partition l []⟩

/-- C8 witness: the theorem applied to two records sharing the id
TA000007 - the first stays clean, the second is quarantined as an
across-files duplicate. -/
theorem C8_dedup_witness :
    ADW.saleA ∈ (ADW.dedupSales [ADW.saleA, ADW.saleB]).1 ∧
    ADW.crossDupEntry ADW.saleB ∈ (ADW.dedupSales [ADW.saleA, ADW.saleB]).2 := by
  constructor
  · exact C8_dedup_first_kept.2.1 [ADW.saleA, ADW.saleB] 0 (by decide)
      (by decide)
  · exact C8_dedup_first_kept.2.2.1 [ADW.saleA, ADW.saleB] 1 (by decide)
      (by decide)

namespace ADW

/- ## Resilient load engine (uploadAllSales.js, batch upsert loop) -/

/-- The outcome of one store call: a successful upsert, an error
value returned in the result, or a thrown exception. -/
inductive UpsertResult where
  | ok
  | err (code : String) (msg : String)
  | thrown (msg : String)
deriving DecidableEq, Repr

/-- Engine state: the three counters of the source, plus observation
lists recording which records were stored, counted as already
existing, and quarantined, and the index of the next store call. -/
structure LoadRes where
  uploaded : Nat
  errors : Nat
  skipped : Nat
  stored : List Sale
  already : List Sale
  dirty : List SaleDirty
  idx : Nat
deriving DecidableEq, Repr

def initRes : LoadRes := ⟨0, 0, 0, [], [], [], 0⟩

/-- The error classification of the source: code 23505 or a message
containing the word duplicate. -/
def isDupSignal (code msg : String) : Bool :=
  code = ("23505") || strHas msg ("duplicate")

def alreadyEntry (s : Sale) : SaleDirty :=
  ⟨s.sales_source, s,
   ("Transaction ID already exists in database: ") ++ s.transaction_id⟩

def uploadFailedEntry (s : Sale) (msg : String) : SaleDirty :=
  ⟨s.sales_source, s, ("Upload failed: ") ++ msg⟩

/-- The per-record fallback loop: one upsert per record, in batch
order; a conflict error counts the record as already existing and
quarantines it, another error value quarantines it with the error
text, a thrown call only counts an error. -/
def indivLoop (store : Nat → UpsertResult) : List Sale → LoadRes → LoadRes
  | [], r => r
  | s :: rest, r =>
    match store r.idx with
    | .ok =>
      indivLoop store rest
        { r with uploaded := r.uploaded + 1, stored := r.stored ++ [s],
                 idx := r.idx + 1 }
    | .err code msg =>
      if isDupSignal code msg then
        indivLoop store rest
          { r with skipped := r.skipped + 1, already := r.already ++ [s],
                   dirty := r.dirty ++ [alreadyEntry s], idx := r.idx + 1 }
      else
        indivLoop store rest
          { r with errors := r.errors + 1,
                   dirty := r.dirty ++ [uploadFailedEntry s msg],
                   idx := r.idx + 1 }
    | .thrown _ =>
      indivLoop store rest { r with errors := r.errors + 1, idx := r.idx + 1 }

/-- The batch loop: one upsert per batch; an error value triggers the
per-record fallback, a thrown batch call only adds the batch size to
the error count (its records are neither stored nor quarantined). -/
def batchLoop (store : Nat → UpsertResult) :
    List (List Sale) → LoadRes → LoadRes
  | [], r => r
  | b :: bs, r =>
    match store r.idx with
    | .ok =>
      batchLoop store bs
        { r with uploaded := r.uploaded + b.length, stored := r.stored ++ b,
                 idx := r.idx + 1 }
    | .err _ _ =>
      batchLoop store bs (indivLoop store b { r with idx := r.idx + 1 })
    | .thrown _ =>
      batchLoop store bs
        { r with errors := r.errors + b.length, idx := r.idx + 1 }

/-- Fixed-size slicing of the record list (fuel-structured version of
the slice loop). -/
def chunkFuel {α : Type} : Nat → Nat → List α → List (List α)
  | 0, _, _ => []
  | _, _, [] => []
  | fuel + 1, n, x :: xs => (x :: xs.take (n - 1)) :: chunkFuel fuel n (xs.drop (n - 1))

def chunks {α : Type} (n : Nat) (l : List α) : List (List α) :=
  chunkFuel l.length n l

/-- uploadAllSales.js clean-sales upload loop, batch size 100. -/
def sLoad (store : Nat → UpsertResult) (sales : List Sale) : LoadRes :=
  batchLoop store (chunks 100 sales) initRes

lemma chunkFuel_join {α : Type} :
    ∀ (fuel n : Nat) (l : List α), l.length ≤ fuel → 1 ≤ n →
    (chunkFuel fuel n l).flatten = l := by
  intro fuel
  induction fuel with
  | zero =>
    intro n l hl hn
    cases l with
    | nil => rfl
    | cons x xs => simp at hl
  | succ f ih =>
    intro n l hl hn
    cases l with
    | nil => rfl
    | cons x xs =>
      simp only [chunkFuel, List.flatten_cons]
      rw [ih n (xs.drop (n - 1)) ?_ hn]
      · rw [List.cons_append, List.take_append_drop]
      · have hd : (xs.drop (n - 1)).length = xs.length - (n - 1) :=
          List.length_drop _ _
        simp only [List.length_cons] at hl
        omega

lemma chunks_join {α : Type} (n : Nat) (l : List α) (hn : 1 ≤ n) :
    (chunks n l).flatten = l :=
  chunkFuel_join l.length n l (le_refl _) hn

/-- A list of at most the batch size forms a single batch. -/
lemma chunks_single {α : Type} (n : Nat) (x : α) (xs : List α)
    (h : xs.length ≤ n - 1) : chunks n (x :: xs) = [x :: xs] := by
  simp only [chunks, List.length_cons, chunkFuel]
  rw [List.take_of_length_le h, List.drop_eq_nil_of_le h]
  cases xs with
  | nil => rfl
  | cons y ys => rfl

end ADW

namespace ADW

/- Positional specification of the per-record fallback: outcome of
each record determined by the store response at its own index. -/

def specStored (store : Nat → UpsertResult) : Nat → List Sale → List Sale
  | _, [] => []
  | i, s :: rest =>
    match store i with
    | .ok => s :: specStored store (i + 1) rest
    | _ => specStored store (i + 1) rest

def specAlready (store : Nat → UpsertResult) : Nat → List Sale → List Sale
  | _, [] => []
  | i, s :: rest =>
    match store i with
    | .err code msg =>
      if isDupSignal code msg then s :: specAlready store (i + 1) rest
      else specAlready store (i + 1) rest
    | _ => specAlready store (i + 1) rest

def specDirty (store : Nat → UpsertResult) : Nat → List Sale → List SaleDirty
  | _, [] => []
  | i, s :: rest =>
    match store i with
    | .ok => specDirty store (i + 1) rest
    | .err code msg =>
      (if isDupSignal code msg then alreadyEntry s
       else uploadFailedEntry s msg) :: specDirty store (i + 1) rest
    | .thrown _ => specDirty store (i + 1) rest

def specErrCount (store : Nat → UpsertResult) : Nat → List Sale → Nat
  | _, [] => 0
  | i, _ :: rest =>
    match store i with
    | .ok => specErrCount store (i + 1) rest
    | .err code msg =>
      (if isDupSignal code msg then 0 else 1) + specErrCount store (i + 1) rest
    | .thrown _ => 1 + specErrCount store (i + 1) rest

lemma msApp {α : Type} (a b : List α) :
    ((a ++ b : List α) : Multiset α) = ↑a + ↑b := rfl

lemma msCons {α : Type} (x : α) (l : List α) :
    ((x :: l : List α) : Multiset α) = ↑[x] + ↑l := rfl

/-- The per-record fallback equals its positional specification: the
records of the batch are attempted individually in order, one store
call each, with the conflict classification of the source, and no
record is attempted twice (the final index is the start index plus
the batch length). -/
lemma indivLoop_spec (store : Nat → UpsertResult) :
    ∀ (l : List Sale) (r : LoadRes),
    indivLoop store l r =
      { uploaded := r.uploaded + (specStored store r.idx l).length,
        errors := r.errors + specErrCount store r.idx l,
        skipped := r.skipped + (specAlready store r.idx l).length,
        stored := r.stored ++ specStored store r.idx l,
        already := r.already ++ specAlready store r.idx l,
        dirty := r.dirty ++ specDirty store r.idx l,
        idx := r.idx + l.length } := by
  intro l
  induction l with
  | nil =>
    intro r
    simp [indivLoop, specStored, specAlready, specDirty, specErrCount]
  | cons s rest ih =>
    intro r
    cases hst : store r.idx with
    | ok =>
      simp only [indivLoop, hst, specStored, specAlready, specDirty,
        specErrCount]
      rw [ih]
      simp only [List.length_cons, LoadRes.mk.injEq]
      and_intros <;> first | omega | simp
    | err code msg =>
      by_cases hd : isDupSignal code msg = true
      · simp only [indivLoop, hst, specStored, specAlready, specDirty,
          specErrCount, hd, if_true]
        rw [ih]
        simp only [List.length_cons, LoadRes.mk.injEq]
        and_intros <;> first | omega | simp
      · have hd2 : isDupSignal code msg = false := by simpa using hd
        simp only [indivLoop, hst, specStored, specAlready, specDirty,
          specErrCount, hd2, Bool.false_eq_true, if_false]
        rw [ih]
        simp only [List.length_cons, LoadRes.mk.injEq]
        and_intros <;> first | omega | simp
    | thrown m =>
      simp only [indivLoop, hst, specStored, specAlready, specDirty,
        specErrCount]
      rw [ih]
      simp only [List.length_cons, LoadRes.mk.injEq]
      and_intros <;> first | omega | simp

/-- Multiset accounting for the per-record fallback: when no call
throws, the records split exactly into stored ones and quarantined
ones. -/
lemma indivLoop_ms (store : Nat → UpsertResult)
    (hstore : ∀ i m, store i ≠ UpsertResult.thrown m) :
    ∀ (l : List Sale) (r : LoadRes),
    ((indivLoop store l r).stored : Multiset Sale) +
      ↑((indivLoop store l r).dirty.map (fun e => e.original_data)) =
      ↑l + ↑r.stored + ↑(r.dirty.map (fun e => e.original_data)) := by
  intro l
  induction l with
  | nil =>
    intro r
    simp [indivLoop]
  | cons s rest ih =>
    intro r
    cases hst : store r.idx with
    | ok =>
      simp only [indivLoop, hst]
      rw [ih]
      simp only [msApp]
      rw [msCons s rest]
      abel
    | err code msg =>
      by_cases hd : isDupSignal code msg = true
      · simp only [indivLoop, hst, hd, if_true]
        rw [ih]
        simp only [List.map_append, List.map_cons, List.map_nil,
          alreadyEntry, msApp]
        rw [msCons s rest]
        abel
      · have hd2 : isDupSignal code msg = false := by simpa using hd
        simp only [indivLoop, hst, hd2, Bool.false_eq_true, if_false]
        rw [ih]
        simp only [List.map_append, List.map_cons, List.map_nil,
          uploadFailedEntry, msApp]
        rw [msCons s rest]
        abel
    | thrown m => exact absurd hst (hstore _ m)

/-- Multiset accounting for the batch loop. -/
lemma batchLoop_ms (store : Nat → UpsertResult)
    (hstore : ∀ i m, store i ≠ UpsertResult.thrown m) :
    ∀ (bs : List (List Sale)) (r : LoadRes),
    ((batchLoop store bs r).stored : Multiset Sale) +
      ↑((batchLoop store bs r).dirty.map (fun e => e.original_data)) =
      ↑bs.flatten + ↑r.stored + ↑(r.dirty.map (fun e => e.original_data)) := by
  intro bs
  induction bs with
  | nil =>
    intro r
    simp [batchLoop]
  | cons b bs ih =>
    intro r
    cases hst : store r.idx with
    | ok =>
      simp only [batchLoop, hst]
      rw [ih]
      simp only [List.flatten_cons, msApp]
      abel
    | err code msg =>
      simp only [batchLoop, hst]
      rw [ih, add_assoc, indivLoop_ms store hstore]
      simp only [List.flatten_cons, msApp]
      abel
    | thrown m => exact absurd hst (hstore _ m)

end ADW

/-- C2 (amended): in the sales load engine, when every store call
returns a result (none throws), the input records split exactly into
the stored ones and the quarantined ones - already-existing records
are both counted and quarantined with an already-exists reason, so no
record is lost; records of a batch whose upsert call throws are only
counted in the error total (see the counterexample). -/
theorem C2_every_record_accounted :
    ∀ (store : Nat → ADW.UpsertResult) (sales : List ADW.Sale),
    (∀ i m, store i ≠ ADW.UpsertResult.thrown m) →
    ((ADW.sLoad store sales).stored : Multiset ADW.Sale) +
      ↑((ADW.sLoad store sales).dirty.map (fun e => e.original_data)) =
      ↑sales := by
  intro store sales h
  have hb := ADW.batchLoop_ms store h (ADW.chunks 100 sales) ADW.initRes
  rw [ADW.chunks_join 100 sales (by omega)] at hb
  simpa [ADW.sLoad, ADW.initRes] using hb

/-- C2 witness: the theorem applied to a one-record load against a
store that always succeeds. -/
theorem C2_accounted_witness :
    ((ADW.sLoad (fun _ => ADW.UpsertResult.ok) [ADW.saleA]).stored :
        Multiset ADW.Sale) +
      ↑((ADW.sLoad (fun _ => ADW.UpsertResult.ok) [ADW.saleA]).dirty.map
        (fun e => e.original_data)) = ↑[ADW.saleA] :=
  C2_every_record_accounted (fun _ => ADW.UpsertResult.ok) [ADW.saleA]
    (fun _ _ h => ADW.UpsertResult.noConfusion h)

/-- C2 counterexample: when the batch upsert call throws, the batch
records end in none of the three claimed outcomes - not stored, not
counted as already existing, not quarantined - they are only added to
the error count, so the record is lost. -/
theorem C2_counterexample :
    (ADW.sLoad (fun _ => ADW.UpsertResult.thrown ("boom")) [ADW.saleA]).stored
      = [] ∧
    (ADW.sLoad (fun _ => ADW.UpsertResult.thrown ("boom")) [ADW.saleA]).already
      = [] ∧
    (ADW.sLoad (fun _ => ADW.UpsertResult.thrown ("boom")) [ADW.saleA]).dirty
      = [] ∧
    (ADW.sLoad (fun _ => ADW.UpsertResult.thrown ("boom")) [ADW.saleA]).errors
      = 1 :=
  ⟨rfl, rfl, rfl, rfl⟩

namespace ADW

/-- C5 witness store: the batch call fails with an error value, the
individual call reports a uniqueness violation. -/
def c5store : Nat → UpsertResult := fun i =>
  if i = 0 then .err ("500") ("batch failed")
  else .err ("23505") ("duplicate key value")

/-- C5 counterexample store: the batch call fails with an error
value, the individual call throws. -/
def c5badstore : Nat → UpsertResult := fun i =>
  if i = 0 then .err ("500") ("boom1") else .thrown ("boom2")

end ADW

/-- C5 (amended): in the sales load engine, a batch whose upsert
returns an error value is re-attempted record by record in order, one
store call per record and none retried further (the fallback equals
its positional specification, and the engine on a single failed batch
is exactly that fallback); an individual failure classified as a
uniqueness conflict (code 23505 or a message containing the word
duplicate) is counted as already present and quarantined with an
already-exists reason, any other individual error value is
quarantined with a reason containing the underlying error text, an
individual call that throws is only counted as an error with no
quarantine entry, and a batch whose upsert call throws is not
re-attempted at all. -/
theorem C5_batch_fallback_classification :
    (∀ (store : Nat → ADW.UpsertResult) (l : List ADW.Sale)
        (r : ADW.LoadRes),
      ADW.indivLoop store l r =
        { uploaded := r.uploaded + (ADW.specStored store r.idx l).length,
          errors := r.errors + ADW.specErrCount store r.idx l,
          skipped := r.skipped + (ADW.specAlready store r.idx l).length,
          stored := r.stored ++ ADW.specStored store r.idx l,
          already := r.already ++ ADW.specAlready store r.idx l,
          dirty := r.dirty ++ ADW.specDirty store r.idx l,
          idx := r.idx + l.length }) ∧
    (∀ (store : Nat → ADW.UpsertResult) (code msg : String) (x : ADW.Sale)
        (xs : List ADW.Sale),
      xs.length ≤ 99 → store 0 = ADW.UpsertResult.err code msg →
      ADW.sLoad store (x :: xs) =
        ADW.indivLoop store (x :: xs) { ADW.initRes with idx := 1 }) ∧
    (∀ (store : Nat → ADW.UpsertResult) (msg : String) (x : ADW.Sale)
        (xs : List ADW.Sale),
      xs.length ≤ 99 → store 0 = ADW.UpsertResult.thrown msg →
      ADW.sLoad store (x :: xs) =
        { ADW.initRes with errors := xs.length + 1, idx := 1 }) := by
  refine ⟨fun store l r => ADW.indivLoop_spec store l r, ?_, ?_⟩
  · intro store code msg x xs hlen hst
    rw [ADW.sLoad, ADW.chunks_single 100 x xs (by omega)]
    show (match store ADW.initRes.idx with
      | ADW.UpsertResult.ok => ADW.batchLoop store []
          { ADW.initRes with
              uploaded := ADW.initRes.uploaded + (x :: xs).length,
              stored := ADW.initRes.stored ++ (x :: xs),
              idx := ADW.initRes.idx + 1 }
      | ADW.UpsertResult.err _ _ => ADW.batchLoop store []
          (ADW.indivLoop store (x :: xs)
            { ADW.initRes with idx := ADW.initRes.idx + 1 })
      | ADW.UpsertResult.thrown _ => ADW.batchLoop store []
          { ADW.initRes with
              errors := ADW.initRes.errors + (x :: xs).length,
              idx := ADW.initRes.idx + 1 }) =
      ADW.indivLoop store (x :: xs) { ADW.initRes with idx := 1 }
    rw [show ADW.initRes.idx = 0 from rfl, hst]
    rfl
  · intro store msg x xs hlen hst
    rw [ADW.sLoad, ADW.chunks_single 100 x xs (by omega)]
    show (match store ADW.initRes.idx with
      | ADW.UpsertResult.ok => ADW.batchLoop store []
          { ADW.initRes with
              uploaded := ADW.initRes.uploaded + (x :: xs).length,
              stored := ADW.initRes.stored ++ (x :: xs),
              idx := ADW.initRes.idx + 1 }
      | ADW.UpsertResult.err _ _ => ADW.batchLoop store []
          (ADW.indivLoop store (x :: xs)
            { ADW.initRes with idx := ADW.initRes.idx + 1 })
      | ADW.UpsertResult.thrown _ => ADW.batchLoop store []
          { ADW.initRes with
              errors := ADW.initRes.errors + (x :: xs).length,
              idx := ADW.initRes.idx + 1 }) =
      { ADW.initRes with errors := xs.length + 1, idx := 1 }
    rw [show ADW.initRes.idx = 0 from rfl, hst]
    simp [ADW.batchLoop, ADW.initRes]

/-- C5 witness: the theorem applied to a one-record batch whose batch
call fails and whose individual call reports a conflict - the record
is counted as already existing and quarantined, after exactly two
store calls. -/
theorem C5_batch_fallback_witness :
    ADW.sLoad ADW.c5store [ADW.saleA] =
      { uploaded := 0, errors := 0, skipped := 1, stored := [],
        already := [ADW.saleA], dirty := [ADW.alreadyEntry ADW.saleA],
        idx := 2 } := by
  have h2 := C5_batch_fallback_classification.2.1 ADW.c5store ("500")
    ("batch failed") ADW.saleA [] (by decide) (by decide)
  have h1 := C5_batch_fallback_classification.1 ADW.c5store [ADW.saleA]
    { ADW.initRes with idx := 1 }
  rw [h2, h1]
  decide

/-- C5 counterexample: a batch fails with an error value, the
individual re-attempt throws; the record is only counted in the error
total and no quarantine entry with the underlying error text exists,
contradicting the claim that every other individual failure is
quarantined. -/
theorem C5_counterexample :
    (ADW.sLoad ADW.c5badstore [ADW.saleA]).dirty = [] ∧
    (ADW.sLoad ADW.c5badstore [ADW.saleA]).errors = 1 ∧
    (ADW.sLoad ADW.c5badstore [ADW.saleA]).stored = [] ∧
    (ADW.sLoad ADW.c5badstore [ADW.saleA]).already = [] := by
  refine ⟨by decide, by decide, by decide, by decide⟩

namespace ADW

/- ## Quarantine sink with local fallback (uploadAllSales.js) and
without (smartFileProcessor.js saveDirtyData) -/

/-- The dirty-save loop of uploadAllSales.js over pre-sliced batches:
a successful remote insert stores the batch in the dirty table, a
failed one appends the whole batch as one line of the local backup
file; the counter is the batch number fed to the sink behaviour. -/
def saveDirtyGo (sink : Nat → Bool) :
    List (List SaleDirty) → Nat → List SaleDirty × List (List SaleDirty)
  | [], _ => ([], [])
  | b :: bs, k =>
    if sink k then
      (b ++ (saveDirtyGo sink bs (k + 1)).1, (saveDirtyGo sink bs (k + 1)).2)
    else
      ((saveDirtyGo sink bs (k + 1)).1, b :: (saveDirtyGo sink bs (k + 1)).2)

/-- uploadAllSales.js dirty-data save: batches of 100. -/
def salesSaveDirty (sink : Nat → Bool) (dirty : List SaleDirty) :
    List SaleDirty × List (List SaleDirty) :=
  saveDirtyGo sink (chunks 100 dirty) 0

/-- smartFileProcessor.js saveDirtyData: one remote insert whose
result is discarded; no local fallback exists, so a failed sink
stores the records nowhere. -/
def saveDirtyData (sinkOk : Bool) (records : List SaleDirty) :
    List SaleDirty × List (List SaleDirty) :=
  (if 0 < records.length ∧ sinkOk = true then records else [], [])

lemma saveDirtyGo_ms (sink : Nat → Bool) :
    ∀ (bs : List (List SaleDirty)) (k : Nat),
    ((saveDirtyGo sink bs k).1 : Multiset SaleDirty) +
      ↑(saveDirtyGo sink bs k).2.flatten = ↑bs.flatten := by
  intro bs
  induction bs with
  | nil =>
    intro k
    simp [saveDirtyGo]
  | cons b bs ih =>
    intro k
    by_cases hs : sink k = true
    · simp only [saveDirtyGo, hs, if_true, List.flatten_cons, msApp]
      rw [add_assoc, ih]
    · simp only [saveDirtyGo, hs, Bool.false_eq_true, if_false,
        List.flatten_cons, msApp]
      rw [add_left_comm, ih]
end ADW

/-- C6 (amended): in the sales uploader, every quarantine-bound
record ends either in the remote dirty table or on a line of the
local backup file, whatever batches fail, so no quarantine data is
lost there; the smart processor saveDirtyData, by contrast, discards
the result of its single remote insert and has no local fallback, so
a failed sink stores its records nowhere. -/
theorem C6_local_fallback :
    (∀ (sink : Nat → Bool) (dirty : List ADW.SaleDirty),
      ((ADW.salesSaveDirty sink dirty).1 : Multiset ADW.SaleDirty) +
        ↑(ADW.salesSaveDirty sink dirty).2.flatten = ↑dirty) ∧
    (∀ records : List ADW.SaleDirty,
      (ADW.saveDirtyData false records).1 = [] ∧
      (ADW.saveDirtyData false records).2 = []) := by
  constructor
  · intro sink dirty
    have h := ADW.saveDirtyGo_ms sink (ADW.chunks 100 dirty) 0
    rw [ADW.chunks_join 100 dirty (by omega)] at h
    exact h
  · intro records
    constructor
    · simp [ADW.saveDirtyData]
    · rfl

/-- C6 counterexample: a quarantine record whose remote write fails
in the smart processor is written neither to the remote sink nor to
any local file - the claim that the same record is then written to a
local durable file fails there. -/
theorem C6_counterexample :
    ADW.saveDirtyData false [ADW.alreadyEntry ADW.saleA] = ([], []) ∧
    ([] : List ADW.SaleDirty) ≠ [ADW.alreadyEntry ADW.saleA] := by
  constructor
  · simp [ADW.saveDirtyData]
  · simp
